import Mathlib

/-!
Shallow embedding of the KPI-tree mutation engine and format codec of the
KPI-Tree-4-RT repository (src/src/composables/useTreeStore.ts and
src/src/utils/fileExport.ts), together with theorems settling the claims
about it.

Modelling conventions:
* A `KPINode` mirrors the TypeScript interface in src/src/types/index.ts.
  Optional TS fields become `Option`; the `icon?: Component` field (a Vue
  render component, not data) is omitted.  JS truthiness of an optional
  boolean is `jsBool`; an empty string is falsy (`jsStr`), and an array is
  always truthy (so `children = some []` is truthy while `none` is falsy,
  which matters for `findParentOfNode`).
* `JSON.parse(JSON.stringify(x))` (`deepClone`) is the identity here: in
  this model every field is plain data and absent/undefined fields are
  already represented by `none`.
* `generateNodeId` / `generateXMindId` produce time/random based ids; they
  are modelled by an injected supply `gen : Nat → String`, consumed in the
  same order the TS code calls the generator.
* Mutation of the reactive store becomes explicit forest passing: each
  operation takes the forest and returns the new forest.
-/

/-- The closed category set from src/src/types/index.ts (`NodeCategory`). -/
inductive NodeCategory : Type where
  | root | revenue | cost | fcf | capex | financial | operational
  | maintenance | esg | production | employee | equipment | metric
deriving Repr, DecidableEq, BEq

/-- The category string used in TS error messages (the TS value is the string itself). -/
def catName : NodeCategory → String
  | .root => "root" | .revenue => "revenue" | .cost => "cost" | .fcf => "fcf"
  | .capex => "capex" | .financial => "financial" | .operational => "operational"
  | .maintenance => "maintenance" | .esg => "esg" | .production => "production"
  | .employee => "employee" | .equipment => "equipment" | .metric => "metric"

/-- `NodeRelationship` from src/src/types/index.ts: a directed labeled edge. -/
structure NodeRel : Type where
  id : String
  targetId : String
  label : Option String
deriving Repr, DecidableEq

/-- A 2D position (`{x, y}`), for detached nodes. -/
structure Pos : Type where
  x : Int
  y : Int
deriving Repr, DecidableEq

/-- `KPINode` from src/src/types/index.ts.  Field order follows the TS
interface; `icon` is omitted (it is a Vue component, not data); `esg` is the
literal string "E" | "S" | "G" and `scope` the number 1 | 2 | 3. -/
inductive KPINode : Type where
  | mk (id name : String) (unit : Option String) (esg : Option String)
       (scope : Option Nat) (category : Option NodeCategory)
       (children : Option (List KPINode)) (isDetached : Option Bool)
       (relationships : Option (List NodeRel)) (markers : Option (List String))
       (position : Option Pos) : KPINode
deriving Repr

@[simp] def KPINode.id : KPINode → String
  | ⟨i, _, _, _, _, _, _, _, _, _, _⟩ => i

@[simp] def KPINode.name : KPINode → String
  | ⟨_, nm, _, _, _, _, _, _, _, _, _⟩ => nm

@[simp] def KPINode.unit : KPINode → Option String
  | ⟨_, _, u, _, _, _, _, _, _, _, _⟩ => u

@[simp] def KPINode.esg : KPINode → Option String
  | ⟨_, _, _, e, _, _, _, _, _, _, _⟩ => e

@[simp] def KPINode.scope : KPINode → Option Nat
  | ⟨_, _, _, _, s, _, _, _, _, _, _⟩ => s

@[simp] def KPINode.category : KPINode → Option NodeCategory
  | ⟨_, _, _, _, _, c, _, _, _, _, _⟩ => c

@[simp] def KPINode.children : KPINode → Option (List KPINode)
  | ⟨_, _, _, _, _, _, ch, _, _, _, _⟩ => ch

@[simp] def KPINode.isDetached : KPINode → Option Bool
  | ⟨_, _, _, _, _, _, _, d, _, _, _⟩ => d

@[simp] def KPINode.relationships : KPINode → Option (List NodeRel)
  | ⟨_, _, _, _, _, _, _, _, r, _, _⟩ => r

@[simp] def KPINode.markers : KPINode → Option (List String)
  | ⟨_, _, _, _, _, _, _, _, _, m, _⟩ => m

@[simp] def KPINode.position : KPINode → Option Pos
  | ⟨_, _, _, _, _, _, _, _, _, _, p⟩ => p

/-- JS truthiness of an optional boolean field (`undefined` is falsy). -/
@[simp] def jsBool (b : Option Bool) : Bool := b.getD false

/-- JS truthiness of a string (the empty string is falsy). -/
@[simp] def jsStr (s : String) : Bool := s != ""

/-- `node.children || []`. -/
@[simp] def childD (n : KPINode) : List KPINode := n.children.getD []

/-- `node.relationships || []`. -/
@[simp] def relsD (n : KPINode) : List NodeRel := n.relationships.getD []

/-- `{...node, children: cs}`: rebuild a node replacing only `children`. -/
@[simp] def setChildren : KPINode → Option (List KPINode) → KPINode
  | ⟨i, nm, u, e, s, c, _, d, r, m, p⟩, cs => ⟨i, nm, u, e, s, c, cs, d, r, m, p⟩

/-- `{...node, relationships: rs}`: rebuild a node replacing only `relationships`. -/
@[simp] def setRels : KPINode → Option (List NodeRel) → KPINode
  | ⟨i, nm, u, e, s, c, ch, d, _, m, p⟩, rs => ⟨i, nm, u, e, s, c, ch, d, rs, m, p⟩

/-- `{...node, markers: ms}`: rebuild a node replacing only `markers`. -/
@[simp] def setMarkers : KPINode → Option (List String) → KPINode
  | ⟨i, nm, u, e, s, c, ch, d, r, _, p⟩, ms => ⟨i, nm, u, e, s, c, ch, d, r, ms, p⟩

/-- `JSON.parse(JSON.stringify(nodes))` — the identity on this plain-data model. -/
@[simp] def deepClone (nodes : List KPINode) : List KPINode := nodes

/-! ### String helpers mirroring the JS string primitives used by the code -/

/-- `String.prototype.toLowerCase` (per-character lowering). -/
def lowerStr (s : String) : String := String.mk (s.toList.map Char.toLower)

/-- `haystack.includes(needle)` on character lists. -/
def listHasSub (needle : List Char) : List Char → Bool
  | [] => needle.isEmpty
  | c :: rest => needle.isPrefixOf (c :: rest) || listHasSub needle rest

/-- `haystack.includes(needle)`. -/
def hasSubstr (haystack needle : String) : Bool :=
  listHasSub needle.toList haystack.toList

/-! ### Category model (useTreeStore.ts lines 7-44) -/

/-- `VALID_PARENT_CATEGORIES` from useTreeStore.ts lines 7-21: the legal
parent categories of each node category. -/
def VALID_PARENT_CATEGORIES : NodeCategory → List NodeCategory
  | .root => []
  | .revenue => [.root]
  | .cost => [.root]
  | .fcf => [.root]
  | .capex => [.root]
  | .financial => [.root]
  | .operational => [.root]
  | .maintenance => [.root, .operational]
  | .esg => [.root]
  | .production => [.revenue]
  | .employee => [.cost]
  | .equipment => [.cost, .production, .maintenance]
  | .metric => [.revenue, .cost, .fcf, .capex, .financial, .operational,
                .maintenance, .esg, .production, .employee, .equipment, .metric]

/-- `isLegalParent(childCategory, parentCategory)` as the spec names the
membership test used by `isMoveValid` (useTreeStore.ts line 187):
`parentCategory ∈ VALID_PARENT_CATEGORIES[childCategory]`. -/
def isLegalParent (childCategory parentCategory : NodeCategory) : Bool :=
  (VALID_PARENT_CATEGORIES childCategory).contains parentCategory

/-- `inferCategory` from useTreeStore.ts lines 24-44: the explicit category
if set, else ordered id/name pattern heuristics, defaulting to `metric`. -/
def inferCategory (n : KPINode) : NodeCategory :=
  match n.category with
  | some c => c
  | none =>
    let id := lowerStr n.id
    let name := lowerStr n.name
    if id == "ebitda-root" || hasSubstr id "ebitda" then .root
    else if id.startsWith "production-" || id == "production-revenue"
        || hasSubstr name "production (revenue)" then .revenue
    else if id == "cash-cost" || id.startsWith "cash-cost" then .cost
    else if id == "free-cash-flow" || id.startsWith "fcf" || hasSubstr id "free-cash" then .fcf
    else if id == "capex" || id.startsWith "capex-" then .capex
    else if id.startsWith "financial-" || id == "financial-performance" then .financial
    else if id.startsWith "operational-" || id == "operational-excellence" then .operational
    else if id == "maintenance" || id.startsWith "maintenance-"
        || id.startsWith "rm-" || id.startsWith "reliability-" then .maintenance
    else if hasSubstr id "esg" || id.startsWith "environmental-"
        || id.startsWith "social-" || id.startsWith "governance-" then .esg
    else if id.startsWith "ob-" || id.startsWith "coal-" || id.startsWith "drill-blast" then .production
    else if id.startsWith "emp-" || id.startsWith "employee-"
        || hasSubstr name "employee" || hasSubstr name "labor" then .employee
    else if id.startsWith "tyre-" || id.startsWith "fuel-" || id.startsWith "equipment-"
        || hasSubstr name "tyre" || hasSubstr name "fuel" || hasSubstr name "equipment" then .equipment
    else .metric

/-! ### Tree store lookups (useTreeStore.ts lines 104-126) -/

/-- `findNodeById` from useTreeStore.ts lines 105-114: depth-first search by id. -/
def findNodeById (nodeId : String) : List KPINode → Option KPINode
  | [] => none
  | n :: rest =>
    if n.id == nodeId then some n
    else
      match _h : n.children with
      | some cs =>
        match findNodeById nodeId cs with
        | some found => some found
        | none => findNodeById nodeId rest
      | none => findNodeById nodeId rest
termination_by nodes => sizeOf nodes
decreasing_by
  all_goals cases n
  all_goals simp_all
  all_goals omega

/-- `findParentOfNode` from useTreeStore.ts lines 117-126.  The TS guard is
`if (found !== undefined) return found;`, but the recursion only ever
returns a node or `null`, never `undefined` — so whenever a node has a
`children` array (even an empty one) the loop returns the recursive result
unconditionally and never examines the remaining siblings. -/
def findParentOfNode (nodeId : String) (nodes : List KPINode)
    (parent : Option KPINode) : Option KPINode :=
  match nodes with
  | [] => none
  | n :: rest =>
    if n.id == nodeId then parent
    else
      match _h : n.children with
      | some cs => findParentOfNode nodeId cs (some n)
      | none => findParentOfNode nodeId rest parent
termination_by sizeOf nodes
decreasing_by
  all_goals cases n
  all_goals simp_all
  all_goals omega

/-! ### Move validation (useTreeStore.ts lines 170-232) -/

/-- The `{valid, reason?}` result record of the validation functions. -/
structure MoveResult : Type where
  valid : Bool
  reason : Option String
deriving Repr, DecidableEq

/-- `isMoveValid` from useTreeStore.ts lines 170-195: category-table check of
a proposed reparenting (`targetNode = none` means root level). -/
def isMoveValid (sourceNode : KPINode) (targetNode : Option KPINode) : MoveResult :=
  let sourceCategory := inferCategory sourceNode
  let targetCategory :=
    match targetNode with
    | some t => inferCategory t
    | none => NodeCategory.root
  if sourceCategory = .root then
    ⟨false, some "Cannot move root-level EBITDA node"⟩
  else
    match targetNode with
    | none =>
      if (VALID_PARENT_CATEGORIES sourceCategory).contains .root then ⟨true, none⟩
      else ⟨false, some (sourceNode.name ++ " cannot be moved to root level")⟩
    | some _ =>
      if (VALID_PARENT_CATEGORIES sourceCategory).contains targetCategory then ⟨true, none⟩
      else ⟨false, some (catName sourceCategory ++ " items cannot be moved under "
                          ++ catName targetCategory ++ " items.")⟩

mutual

/-- The inner `checkDescendants` of `isDescendant` (useTreeStore.ts lines
199-205): is `target` the id of a node in the subtree rooted at `n`? -/
def checkDescendants (n : KPINode) (target : String) : Bool :=
  n.id == target ||
    (match _h : n.children with
     | some cs => checkDescList cs target
     | none => false)
termination_by sizeOf n
decreasing_by
  cases n
  simp_all
  omega

/-- `node.children.some(child => checkDescendants(child, target))`. -/
def checkDescList (cs : List KPINode) (target : String) : Bool :=
  match cs with
  | [] => false
  | c :: rest => checkDescendants c target || checkDescList rest target
termination_by sizeOf cs
decreasing_by
  all_goals simp
  all_goals omega

end

/-- `isDescendant` from useTreeStore.ts lines 198-210. -/
def isDescendant (F : List KPINode) (nodeId targetId : String) : Bool :=
  match findNodeById nodeId F with
  | none => false
  | some sourceNode => checkDescendants sourceNode targetId

/-- `validateMove` from useTreeStore.ts lines 213-232.  `targetParentId` is
`string | null`; note the JS truthiness checks: an empty-string target and
the `"__root__"` sentinel both skip the descendant test and resolve the
target to root level. -/
def validateMove (F : List KPINode) (nodeId : String)
    (targetParentId : Option String) : MoveResult :=
  if (match targetParentId with | some t => nodeId == t | none => false) then
    ⟨false, some "Cannot move a node to itself"⟩
  else
    match findNodeById nodeId F with
    | none => ⟨false, some "Source node not found"⟩
    | some sourceNode =>
      let descendantHit :=
        match targetParentId with
        | some t => jsStr t && t != "__root__" && isDescendant F nodeId t
        | none => false
      if descendantHit then
        ⟨false, some "Cannot move a node into its own descendant"⟩
      else
        let targetNode :=
          match targetParentId with
          | some t => if jsStr t && t != "__root__" then findNodeById t F else none
          | none => none
        isMoveValid sourceNode targetNode

/-! ### Structural mutation helpers (useTreeStore.ts lines 235-331) -/

/-- Last-assignment-wins combination for the `removedNode` closure variable of
`removeNodeFromTree` (a later match overwrites an earlier one). -/
@[simp] def lastAssigned (earlier later : Option KPINode) : Option KPINode :=
  match later with
  | some x => some x
  | none => earlier

/-- The `filter` closure of `removeNodeFromTree` (useTreeStore.ts lines
238-249): remove every node whose id matches, remembering the removed node
(with its subtree); children of kept nodes are filtered recursively. -/
def removeFilter (nodeId : String) : List KPINode → List KPINode × Option KPINode
  | [] => ([], none)
  | n :: rest =>
    if n.id == nodeId then
      let r := removeFilter nodeId rest
      (r.1, lastAssigned (some n) r.2)
    else
      match _h : n.children with
      | some cs =>
        let rc := removeFilter nodeId cs
        let r := removeFilter nodeId rest
        (setChildren n (some rc.1) :: r.1, lastAssigned rc.2 r.2)
      | none =>
        let r := removeFilter nodeId rest
        (n :: r.1, r.2)
termination_by nodes => sizeOf nodes
decreasing_by
  all_goals cases n
  all_goals simp_all
  all_goals omega

/-- `removeNodeFromTree` from useTreeStore.ts lines 235-253 (it operates on a
deep clone of the forest). -/
def removeNodeFromTree (nodeId : String) (nodes : List KPINode) :
    List KPINode × Option KPINode :=
  removeFilter nodeId (deepClone nodes)

/-- The shared recursive worker of `addNodeToParent` (useTreeStore.ts lines
261-275) and of the `addToParent` closure inside `addNode` (lines 308-324):
append `nodeToAdd` as last child of the node(s) whose id is `parentId`. -/
def appendChildAt (parentId : String) (nodeToAdd : KPINode) :
    List KPINode → List KPINode
  | [] => []
  | n :: rest =>
    let n2 :=
      if n.id == parentId then
        setChildren n (some (childD n ++ [nodeToAdd]))
      else
        match _h : n.children with
        | some cs => setChildren n (some (appendChildAt parentId nodeToAdd cs))
        | none => n
    n2 :: appendChildAt parentId nodeToAdd rest
termination_by nodes => sizeOf nodes
decreasing_by
  all_goals cases n
  all_goals simp_all
  all_goals omega

/-- `addNodeToParent` from useTreeStore.ts lines 256-276: `null` or the
`"__root__"` sentinel appends at top level, otherwise the node is appended
under the parent with the given id (a missing parent id leaves the forest
unchanged and silently drops `nodeToAdd`). -/
def addNodeToParent (nodes : List KPINode) (parentId : Option String)
    (nodeToAdd : KPINode) : List KPINode :=
  match parentId with
  | none => nodes ++ [nodeToAdd]
  | some pid =>
    if pid == "__root__" then nodes ++ [nodeToAdd]
    else appendChildAt pid nodeToAdd nodes

/-- `moveNode` from useTreeStore.ts lines 279-295, returning the
`{valid, reason?}` result together with the resulting forest. -/
def moveNode (F : List KPINode) (nodeId : String)
    (targetParentId : Option String) : MoveResult × List KPINode :=
  let validation := validateMove F nodeId targetParentId
  if validation.valid then
    let r := removeNodeFromTree nodeId F
    match r.2 with
    | none => (⟨false, some "Node not found"⟩, F)
    | some removedNode => (⟨true, none⟩, addNodeToParent r.1 targetParentId removedNode)
  else (validation, F)

/-- `NewNodeData` from src/src/types/index.ts. -/
structure NewNodeData : Type where
  name : String
  unit : Option String
  esg : Option String
  scope : Option Nat
deriving Repr, DecidableEq

/-- `addNode` from useTreeStore.ts lines 298-331: build a fresh `metric` leaf
(`freshId` models `generateNodeId()`) and append it under `parentId`;
returns the new node's id with the new forest.  No validation: if no node
has id `parentId` the forest is returned unchanged but the id is still
returned. -/
def addNode (F : List KPINode) (parentId : String) (nodeData : NewNodeData)
    (freshId : String) : String × List KPINode :=
  let newNode : KPINode :=
    ⟨freshId, nodeData.name, nodeData.unit, nodeData.esg, nodeData.scope,
     some .metric, none, none, none, none, none⟩
  (freshId, appendChildAt parentId newNode (deepClone F))

/-! ### Duplicate (useTreeStore.ts lines 428-483) -/

mutual

/-- `duplicateWithNewIds` from useTreeStore.ts lines 432-439 (the Lean name
keeps the TS name; `gen`/`k` model the successive `generateNodeId()` calls):
`{...node, id: generateNodeId(), name: node.name + " (copy)",
children: node.children?.map(duplicateWithNewIds)}`.  Returns the clone and
the next unused generator index. -/
def duplicateWithNewIds (gen : Nat → String) (k : Nat) (node : KPINode) :
    KPINode × Nat :=
  match node with
  | ⟨_, nm, u, e, s, c, ch, d, r, m, p⟩ =>
    match ch with
    | some cs =>
      let rc := duplicateChildren gen (k + 1) cs
      (⟨gen k, nm ++ " (copy)", u, e, s, c, some rc.1, d, r, m, p⟩, rc.2)
    | none => (⟨gen k, nm ++ " (copy)", u, e, s, c, none, d, r, m, p⟩, k + 1)
termination_by sizeOf node

/-- The `node.children?.map(duplicateWithNewIds)` traversal, threading the id
generator through the list. -/
def duplicateChildren (gen : Nat → String) (k : Nat) :
    (nodes : List KPINode) → List KPINode × Nat
  | [] => ([], k)
  | c :: rest =>
    let rc := duplicateWithNewIds gen k c
    let rr := duplicateChildren gen rc.2 rest
    (rc.1 :: rr.1, rr.2)
termination_by nodes => sizeOf nodes

end

/-- The field-listing rebuild inside the `addSibling` closure of
`duplicateNode` (useTreeStore.ts lines 454-463): only `id, name, icon, unit,
esg, scope, category, children` are copied — `isDetached`, `relationships`,
`markers` and `position` are dropped. -/
@[simp] def rebuildListed (cur : KPINode) (newChildren : List KPINode) : KPINode :=
  ⟨cur.id, cur.name, cur.unit, cur.esg, cur.scope, cur.category,
   some newChildren, none, none, none, none⟩

/-- `result[idx] = ...` where `idx = result.length - 1`: replace the last
element of the per-iteration result slice. -/
def replaceLast (f : KPINode → KPINode) : List KPINode → List KPINode
  | [] => []
  | [x] => [f x]
  | x :: xs => x :: replaceLast f xs

/-- The `addSibling` closure of `duplicateNode` (useTreeStore.ts lines
443-468): push each node, push the duplicate right after the matching node,
and for any node that has children rebuild the element at `result.length - 1`
(which is the freshly pushed duplicate when the matching node has children!)
with only the listed fields and with `children := addSibling(node.children)`. -/
def addSibling (nodeId : String) (dup : KPINode) : List KPINode → List KPINode
  | [] => []
  | n :: rest =>
    let base : List KPINode := if n.id == nodeId then [n, dup] else [n]
    let base2 :=
      match _h : n.children with
      | some cs =>
        let cs2 := addSibling nodeId dup cs
        replaceLast (fun cur => rebuildListed cur cs2) base
      | none => base
    base2 ++ addSibling nodeId dup rest
termination_by nodes => sizeOf nodes
decreasing_by
  all_goals cases n
  all_goals simp_all
  all_goals omega

/-- `splice(index + 1, 0, duplicatedNode)` after `findIndex`: insert `dup`
immediately after the first top-level node whose id matches. -/
def spliceAfter (nodeId : String) (dup : KPINode) : List KPINode → List KPINode
  | [] => []
  | n :: rest =>
    if n.id == nodeId then n :: dup :: rest
    else n :: spliceAfter nodeId dup rest

/-- `duplicateNode` from useTreeStore.ts lines 428-483: clone the subtree of
`nodeId` with fresh ids (`gen` models `generateNodeId`) and insert the clone
as the next sibling; top-level nodes use the splice path, nested nodes the
`addSibling` path. -/
def duplicateNode (F : List KPINode) (nodeId : String) (gen : Nat → String) :
    List KPINode :=
  match findNodeById nodeId F with
  | none => F
  | some nodeToDuplicate =>
    let duplicatedNode := (duplicateWithNewIds gen 0 nodeToDuplicate).1
    let isAtRoot := F.any fun n => n.id == nodeId
    if isAtRoot then spliceAfter nodeId duplicatedNode (deepClone F)
    else addSibling nodeId duplicatedNode (deepClone F)

/-! ### Links (useTreeStore.ts lines 516-559) and import-side relationship
processing (fileExport.ts lines 300-346) -/

/-- The `updateNode` closure of `createLink` (useTreeStore.ts lines 538-552):
append the new relationship to the node whose id is `src`; nodes that do not
match are descended into. -/
def linkUpdateNode (src : String) (newRel : NodeRel) : List KPINode → List KPINode
  | [] => []
  | n :: rest =>
    let n2 :=
      if n.id == src then
        setRels n (some (relsD n ++ [newRel]))
      else
        match _h : n.children with
        | some cs => setChildren n (some (linkUpdateNode src newRel cs))
        | none => n
    n2 :: linkUpdateNode src newRel rest
termination_by nodes => sizeOf nodes
decreasing_by
  all_goals cases n
  all_goals simp_all
  all_goals omega

/-- `createLink` from useTreeStore.ts lines 516-559, with the reactive
`linkSourceId` passed explicitly and `linkId` modelling the generated
`link-...` id.  Returns the success flag together with the new forest. -/
def createLink (F : List KPINode) (linkSourceId : Option String)
    (targetId : String) (label : Option String) (linkId : String) :
    Bool × List KPINode :=
  match linkSourceId with
  | none => (false, F)
  | some src =>
    if src == "" || src == targetId then (false, F)
    else
      match findNodeById src F with
      | none => (false, F)
      | some sourceNode =>
        if (relsD sourceNode).any (fun r => r.targetId == targetId) then (false, F)
        else (true, linkUpdateNode src ⟨linkId, targetId, label⟩ (deepClone F))

/-! ### XMind data shapes (fileExport.ts lines 39-68).  The TS
`children: {attached?, detached?}` object is flattened into the two optional
lists (the presence of an empty `children` object is never observable), and
`attributedTitle: {text}[]` into the list of its `text` strings. -/

/-- `XMindRelationship` from fileExport.ts lines 54-60. -/
structure XRel : Type where
  id : String
  end1Id : String
  end2Id : String
  title : Option String
  attributedTitle : Option (List String)
deriving Repr, DecidableEq

/-- `XMindTopic` from fileExport.ts lines 39-52 (`class` is `cls`). -/
inductive XTopic : Type where
  | mk (id : String) (cls : Option String) (title : String)
       (attributedTitle : Option (List String)) (position : Option Pos)
       (markers : Option (List String)) (childrenAttached : Option (List XTopic))
       (childrenDetached : Option (List XTopic)) (summary : Option (List XTopic)) : XTopic
deriving Repr

@[simp] def XTopic.id : XTopic → String
  | ⟨i, _, _, _, _, _, _, _, _⟩ => i

@[simp] def XTopic.cls : XTopic → Option String
  | ⟨_, c, _, _, _, _, _, _, _⟩ => c

@[simp] def XTopic.title : XTopic → String
  | ⟨_, _, t, _, _, _, _, _, _⟩ => t

@[simp] def XTopic.attributedTitle : XTopic → Option (List String)
  | ⟨_, _, _, a, _, _, _, _, _⟩ => a

@[simp] def XTopic.position : XTopic → Option Pos
  | ⟨_, _, _, _, p, _, _, _, _⟩ => p

@[simp] def XTopic.markers : XTopic → Option (List String)
  | ⟨_, _, _, _, _, m, _, _, _⟩ => m

@[simp] def XTopic.childrenAttached : XTopic → Option (List XTopic)
  | ⟨_, _, _, _, _, _, a, _, _⟩ => a

@[simp] def XTopic.childrenDetached : XTopic → Option (List XTopic)
  | ⟨_, _, _, _, _, _, _, d, _⟩ => d

@[simp] def XTopic.summary : XTopic → Option (List XTopic)
  | ⟨_, _, _, _, _, _, _, _, s⟩ => s

/-- `XMindSheet` from fileExport.ts lines 62-68. -/
structure XSheet : Type where
  id : String
  cls : Option String
  title : String
  rootTopic : XTopic
  relationships : Option (List XRel)
deriving Repr

/-! ### XMind export (fileExport.ts lines 74-216) -/

/-- A child of a node is structurally smaller than the node. -/
theorem sizeOf_lt_of_mem_childD {c n : KPINode} (h : c ∈ childD n) :
    sizeOf c < sizeOf n := by
  cases n with
  | mk i nm u e s cat ch d r mks p =>
    cases ch with
    | none => simp [childD] at h
    | some cs =>
      simp only [childD, KPINode.children, Option.getD] at h
      have h1 := List.sizeOf_lt_of_mem h
      simp
      omega

/-- `kpiNodeToXMindTopic` from fileExport.ts lines 78-113: title is
`name + (unit ? " (unit)" : "")`; children are split into attached and
detached groups, each emitted only when non-empty. -/
def kpiNodeToXMindTopic (node : KPINode) : XTopic :=
  let title := node.name ++ (match node.unit with
    | some un => if jsStr un then " (" ++ un ++ ")" else ""
    | none => "")
  let attachedChildren := (childD node).filter fun c => !jsBool c.isDetached
  let detachedChildren := (childD node).filter fun c => jsBool c.isDetached
  XTopic.mk node.id
    (some (if jsBool node.isDetached then "importantTopic" else "topic"))
    title (some [title]) node.position
    (match node.markers with
     | some ms => if 0 < ms.length then some ms else none
     | none => none)
    (if 0 < attachedChildren.length
     then some (attachedChildren.attach.map fun c => kpiNodeToXMindTopic c.1)
     else none)
    (if 0 < detachedChildren.length
     then some (detachedChildren.attach.map fun c => kpiNodeToXMindTopic c.1)
     else none)
    none
termination_by sizeOf node
decreasing_by
  all_goals exact sizeOf_lt_of_mem_childD (List.mem_filter.mp c.2).1

/-- The relationship record pushed for one node by the `traverse` closure of
`collectRelationships` (fileExport.ts lines 121-129). -/
@[simp] def nodeRelRecords (n : KPINode) : List XRel :=
  (relsD n).map fun rel =>
    ⟨rel.id, n.id, rel.targetId, rel.label,
     match rel.label with
     | some l => some [l]
     | none => none⟩

/-- `collectRelationships` from fileExport.ts lines 116-138: preorder
traversal pushing every node's relationship records. -/
def collectRelationships : List KPINode → List XRel
  | [] => []
  | n :: rest =>
    nodeRelRecords n ++
      (match _h : n.children with
       | some cs => collectRelationships cs
       | none => []) ++
      collectRelationships rest
termination_by nodes => sizeOf nodes
decreasing_by
  all_goals cases n
  all_goals simp_all
  all_goals omega

/-- Preorder list of all nodes of a forest (used to state what "collected
from every node" means). -/
def allNodesList : List KPINode → List KPINode
  | [] => []
  | n :: rest =>
    n :: ((match _h : n.children with
           | some cs => allNodesList cs
           | none => []) ++ allNodesList rest)
termination_by nodes => sizeOf nodes
decreasing_by
  all_goals cases n
  all_goals simp_all
  all_goals omega

/-- The ids of all nodes of a forest, in preorder. -/
def allIds (nodes : List KPINode) : List String :=
  (allNodesList nodes).map KPINode.id

/-- One sheet of the `rootNodes.map((rootNode, index) => ...)` construction
in `exportToXMind` (fileExport.ts lines 148-171): sheet ids come from the
supply `gen`; the first sheet gets all detached top-level nodes as its
detached group and the relationship records of the ENTIRE forest, every
other sheet only the records of its own root's subtree. -/
def mkSheet (gen : Nat → String) (data : List KPINode)
    (detachedNodes : List KPINode) (index : Nat) (rootNode : KPINode) : XSheet :=
  let rootTopic := kpiNodeToXMindTopic rootNode
  let rootTopic :=
    if index == 0 && 0 < detachedNodes.length then
      match rootTopic with
      | ⟨i, c, t, a, p, m, ca, _, s⟩ =>
        XTopic.mk i c t a p m ca (some (detachedNodes.map kpiNodeToXMindTopic)) s
    else rootTopic
  let relationships := collectRelationships (if index == 0 then data else [rootNode])
  ⟨gen index, some "sheet", "Sheet " ++ toString (index + 1), rootTopic,
   if 0 < relationships.length then some relationships else none⟩

/-- The indexed `rootNodes.map` of `exportToXMind`, with the running index
made explicit. -/
def sheetsFrom (gen : Nat → String) (data detachedNodes : List KPINode) :
    Nat → List KPINode → List XSheet
  | _, [] => []
  | index, rootNode :: rest =>
    mkSheet gen data detachedNodes index rootNode ::
      sheetsFrom gen data detachedNodes (index + 1) rest

/-- The sheet list built by `exportToXMind` (fileExport.ts lines 140-192):
one sheet per non-detached top-level node, plus the placeholder "Root" sheet
when there are only detached nodes.  The zip container, `metadata.json` and
`manifest.json` hold no forest data and are not modelled. -/
def exportSheets (gen : Nat → String) (data : List KPINode) : List XSheet :=
  let rootNodes := data.filter fun n => !jsBool n.isDetached
  let detachedNodes := data.filter fun n => jsBool n.isDetached
  let sheets := sheetsFrom gen data detachedNodes 0 rootNodes
  if rootNodes.length == 0 && 0 < detachedNodes.length then
    sheets ++ [⟨gen 0, some "sheet", "Sheet 1",
                XTopic.mk (gen 1) (some "topic") "Root" (some ["Root"]) none none
                  none (some (detachedNodes.map kpiNodeToXMindTopic)) none,
                none⟩]
  else sheets

/-! ### XMind import (fileExport.ts lines 222-397) -/

/-- JS `\s` on the ASCII range (space, tab, line feed, carriage return,
vertical tab, form feed). -/
def isWsJs (c : Char) : Bool :=
  c == ' ' || c == '\t' || c == '\n' || c == '\r' || c == '\x0b' || c == '\x0c'

/-- JS `.` without the `s` flag: any character except a line terminator. -/
def isDotJs (c : Char) : Bool :=
  !(c == '\n' || c == '\r' || c == ' ' || c == ' ')

/-- `String.prototype.trim` (whitespace stripped from both ends). -/
def trimJs (s : String) : String :=
  String.mk (((s.toList.dropWhile isWsJs).reverse.dropWhile isWsJs).reverse)

/-- The tail `\s*\(([^)]+)\)\s*$` of the unit regex in `xmindTopicToKPINode`
(fileExport.ts line 250): skip whitespace, read `(`, a non-empty run of
non-`)` characters (the unit group), `)`, then only trailing whitespace. -/
def unitTail (cs : List Char) : Option (List Char) :=
  match cs.dropWhile isWsJs with
  | '(' :: cs2 =>
    let unitRun := cs2.takeWhile fun c => c != ')'
    if unitRun.isEmpty then none
    else
      match cs2.dropWhile (fun c => c != ')') with
      | ')' :: cs3 => if (cs3.dropWhile isWsJs).isEmpty then some unitRun else none
      | _ => none
  | _ => none

/-- The search for the lazy group `(.+?)` of `/^(.+?)\s*\(([^)]+)\)\s*$/`:
grow the first group one character at a time (each character must match `.`)
and return the first split whose remainder matches `unitTail`. -/
def lazySplit (acc : List Char) : List Char → Option (List Char × List Char)
  | [] => none
  | c :: rest =>
    if isDotJs c then
      let acc2 := acc ++ [c]
      match unitTail rest with
      | some unitRun => some (acc2, unitRun)
      | none => lazySplit acc2 rest
    else none

/-- `title.match(/^(.+?)\s*\(([^)]+)\)\s*$/)` followed by the guarded
`name/unit` extraction of fileExport.ts lines 248-254: on a match the name
is the trimmed first group and the unit the trimmed second group, otherwise
the title is kept whole with no unit. -/
def parseNameUnit (title : String) : String × Option String :=
  match lazySplit [] title.toList with
  | some (g1, g2) => (trimJs (String.mk g1), some (trimJs (String.mk g2)))
  | none => (title, none)

theorem sizeOf_lt_of_mem_topics {c : XTopic} {o : Option (List XTopic)}
    {cs : List XTopic} (ho : o = some cs) (h : c ∈ cs) :
    sizeOf c < sizeOf o := by
  subst ho
  have h1 := List.sizeOf_lt_of_mem h
  simp
  omega

/-- `xmindTopicToKPINode` from fileExport.ts lines 237-297: title from the
richest representation, name/unit split, markers carried over, attached
children plus summary topics (tagged with an extra `summary` marker) as
children. -/
def xmindTopicToKPINode (topic : XTopic) (isDetached : Bool) : KPINode :=
  let title0 := if topic.title == "" then "Untitled" else topic.title
  let title :=
    match topic.attributedTitle with
    | some ts => if 0 < ts.length then String.join ts else title0
    | none => title0
  let nameUnit := parseNameUnit title
  let attachedKids :=
    match _h : topic.childrenAttached with
    | some cs => cs.attach.map fun c => xmindTopicToKPINode c.1 false
    | none => []
  let summaryKids :=
    match _h : topic.summary with
    | some cs =>
      cs.attach.map fun c =>
        let summaryNode := xmindTopicToKPINode c.1 false
        setMarkers summaryNode (some ((summaryNode.markers.getD []) ++ ["summary"]))
    | none => []
  let children := attachedKids ++ summaryKids
  ⟨topic.id, nameUnit.1, nameUnit.2, none, none, none,
   if 0 < children.length then some children else none,
   some isDetached, none,
   (match topic.markers with
    | some ms => if 0 < ms.length then some ms else none
    | none => none),
   topic.position⟩
termination_by sizeOf topic
decreasing_by
  all_goals
    cases topic
    have h1 := sizeOf_lt_of_mem_topics _h c.2
    simp_all
    omega

/-- Append a relationship record to a node's list (the
`node.relationships = node.relationships || []; push(rel)` mutation of
`processRelationships`). -/
@[simp] def pushRel (rel : NodeRel) (n : KPINode) : KPINode :=
  setRels n (some (relsD n ++ [rel]))

/-- Apply `f` to every node of the forest whose id is `nid` (the model of
mutating the single object found in the id → node map; the invariants below
assume globally unique ids, under which exactly one node is affected). -/
def updNodeById (nid : String) (f : KPINode → KPINode) : List KPINode → List KPINode
  | [] => []
  | n :: rest =>
    let base := if n.id == nid then f n else n
    let base2 :=
      match _h : n.children with
      | some cs => setChildren base (some (updNodeById nid f cs))
      | none => base
    base2 :: updNodeById nid f rest
termination_by nodes => sizeOf nodes
decreasing_by
  all_goals cases n
  all_goals simp_all
  all_goals omega

/-- The relationship list of the node with id `nid` (empty when absent). -/
def getRels (nid : String) (F : List KPINode) : List NodeRel :=
  match findNodeById nid F with
  | some n => relsD n
  | none => []

/-- The label resolution of `processRelationships` (fileExport.ts lines
316-320): `rel.title`, overridden by the joined `attributedTitle` texts when
that list is non-empty. -/
def relLabel (rel : XRel) : Option String :=
  match rel.attributedTitle with
  | some ts => if 0 < ts.length then some (String.join ts) else rel.title
  | none => rel.title

/-- One iteration of the `for (const rel of relationships)` loop of
`processRelationships` (fileExport.ts lines 306-345): when both endpoints
exist, push the forward edge onto the `end1Id` node and, unless the
`end2Id` node already has an edge targeting `end1Id`, push the synthesized
`-reverse` edge onto it. -/
def processRel (F : List KPINode) (rel : XRel) : List KPINode :=
  if (findNodeById rel.end1Id F).isSome && (findNodeById rel.end2Id F).isSome then
    let label := relLabel rel
    let F1 := updNodeById rel.end1Id (pushRel ⟨rel.id, rel.end2Id, label⟩) F
    let hasReverse := (getRels rel.end2Id F1).any fun r => r.targetId == rel.end1Id
    if hasReverse then F1
    else
      updNodeById rel.end2Id
        (pushRel ⟨rel.id ++ "-reverse", rel.end1Id,
                  match label with
                  | some l => some ("← " ++ l)
                  | none => none⟩) F1
  else F

/-- `processRelationships` from fileExport.ts lines 300-346. -/
def processRelationships (F : List KPINode) (rels : List XRel) : List KPINode :=
  rels.foldl processRel F

/-- The per-sheet node accumulation of `importFromXMind` (fileExport.ts lines
361-374): the root topic of each sheet, then its detached child topics as
top-level detached nodes. -/
def sheetNodes (sheet : XSheet) : List KPINode :=
  xmindTopicToKPINode sheet.rootTopic false ::
    (match sheet.rootTopic.childrenDetached with
     | some ds => ds.map fun d => xmindTopicToKPINode d true
     | none => [])

/-- The pure part of `importFromXMind` (fileExport.ts lines 348-397): convert
every sheet's topics, pool all sheets' relationship records, and process
them over the pooled forest.  Zip/JSON decoding and the legacy-format errors
are outside this model. -/
def importSheets (sheets : List XSheet) : List KPINode :=
  let allNodes := sheets.foldl (fun acc sheet => acc ++ sheetNodes sheet) []
  let allRelationships := sheets.foldl (fun acc sheet => acc ++ sheet.relationships.getD []) []
  if 0 < allRelationships.length then processRelationships allNodes allRelationships
  else allNodes

/-! ### Basic lemmas about the node rebuild helpers -/

@[simp] theorem setChildren_id (n : KPINode) (cs : Option (List KPINode)) :
    (setChildren n cs).id = n.id := by cases n; rfl

@[simp] theorem setChildren_children (n : KPINode) (cs : Option (List KPINode)) :
    (setChildren n cs).children = cs := by cases n; rfl

@[simp] theorem setChildren_relationships (n : KPINode) (cs : Option (List KPINode)) :
    (setChildren n cs).relationships = n.relationships := by cases n; rfl

@[simp] theorem setRels_id (n : KPINode) (rs : Option (List NodeRel)) :
    (setRels n rs).id = n.id := by cases n; rfl

@[simp] theorem setRels_children (n : KPINode) (rs : Option (List NodeRel)) :
    (setRels n rs).children = n.children := by cases n; rfl

@[simp] theorem setRels_relationships (n : KPINode) (rs : Option (List NodeRel)) :
    (setRels n rs).relationships = rs := by cases n; rfl

theorem pushRel_id (r : NodeRel) (n : KPINode) : (pushRel r n).id = n.id := by
  cases n; simp

theorem pushRel_children (r : NodeRel) (n : KPINode) :
    (pushRel r n).children = n.children := by cases n; simp

theorem pushRel_relationships (r : NodeRel) (n : KPINode) :
    (pushRel r n).relationships = some (relsD n ++ [r]) := by cases n; simp

/-- A found node carries the id it was searched by. -/
theorem findNodeById_id {nodeId : String} {nodes : List KPINode} {m : KPINode}
    (h : findNodeById nodeId nodes = some m) : m.id = nodeId := by
  induction nodes using findNodeById.induct nodeId with
  | case1 => simp [findNodeById] at h
  | case2 n rest hid =>
    rw [findNodeById] at h
    rw [if_pos hid] at h
    obtain rfl : n = m := Option.some.inj h
    simpa using hid
  | case3 n rest hid cs hch found hfind ih =>
    rw [findNodeById, if_neg hid, hch] at h
    simp only [hfind] at h
    obtain rfl : found = m := Option.some.inj h
    exact ih hfind
  | case4 n rest hid cs hch hfind ih ih2 =>
    rw [findNodeById, if_neg hid, hch] at h
    simp only [hfind] at h
    exact ih2 h
  | case5 n rest hid hch ih =>
    rw [findNodeById, if_neg hid, hch] at h
    exact ih h

/-! ## Claim C9: metric under every category -/

/-- C9 counterexample: the claim quantifies over the closed category set
including `root`, but `VALID_PARENT_CATEGORIES['metric']` does not contain
`root`, so a `metric` node is NOT a legal child of a `root` node. -/
theorem isLegalParent_metric_root_false :
    isLegalParent NodeCategory.metric NodeCategory.root = false := by decide

/-- C9 (amended): a node of category `metric` is a legal child of every
category EXCEPT `root` (including `metric` itself). -/
theorem isLegalParent_metric_all_but_root (p : NodeCategory)
    (hp : p ≠ NodeCategory.root) :
    isLegalParent NodeCategory.metric p = true := by
  cases p
  case root => exact absurd rfl hp
  all_goals decide

/-- Witness for `isLegalParent_metric_all_but_root` at `p = metric`. -/
theorem isLegalParent_metric_all_but_root_witness :
    NodeCategory.metric ≠ NodeCategory.root ∧
      isLegalParent NodeCategory.metric NodeCategory.metric = true :=
  ⟨by decide, isLegalParent_metric_all_but_root NodeCategory.metric (by decide)⟩

/-! ## Claim C6: XMind title round-trip of a unit-bearing node -/

theorem parse_revenue_title :
    parseNameUnit "Revenue ($)" = ("Revenue", some "$") := by decide

theorem join_revenue : String.join ["Revenue ($)"] = "Revenue ($)" := by decide

/-- The unit-bearing node of the claim. -/
def nodeC6 : KPINode :=
  ⟨"a", "Revenue", some "$", none, none, none, none, none, none, none, none⟩

theorem export_C6 (gen : Nat → String) :
    exportSheets gen [nodeC6]
      = [⟨gen 0, some "sheet", "Sheet 1",
          XTopic.mk "a" (some "topic") "Revenue ($)" (some ["Revenue ($)"]) none none
            none none none, none⟩] := by
  simp [exportSheets, sheetsFrom, mkSheet, kpiNodeToXMindTopic, collectRelationships,
        nodeC6]
  decide

theorem topic_C6 :
    xmindTopicToKPINode (XTopic.mk "a" (some "topic") "Revenue ($)"
        (some ["Revenue ($)"]) none none none none none) false
      = ⟨"a", "Revenue", some "$", none, none, none, none, some false, none, none, none⟩ := by
  simp [xmindTopicToKPINode, join_revenue, parse_revenue_title]

theorem import_C6 (sid : String) :
    importSheets [⟨sid, some "sheet", "Sheet 1",
        XTopic.mk "a" (some "topic") "Revenue ($)" (some ["Revenue ($)"]) none none
          none none none, none⟩]
      = [⟨"a", "Revenue", some "$", none, none, none, none, some false, none, none, none⟩] := by
  simp only [importSheets, List.foldl]
  simp [sheetNodes, topic_C6]

/-- C6 (confirmed): exporting the forest containing the node
`{id:"a", name:"Revenue", unit:"$"}` to the XMind sheet list and importing
it back yields a node with name "Revenue" and unit "$" — the import-side
title split inverts the export-side `name + " (" + unit + ")"` join.  This
holds for every sheet-id supply `gen`. -/
theorem xmind_roundtrip_unit (gen : Nat → String) :
    (importSheets (exportSheets gen [nodeC6])).map (fun n => (n.name, n.unit))
      = [("Revenue", some "$")] := by
  rw [export_C6 gen, import_C6 (gen 0)]
  simp

/-! ## Claim C1: moveNode vs findParentOfNode -/

/-- Forest for C1: `a` (operational, one maintenance child `b`) and `c`
(operational, childless), all categories explicit. -/
def forestC1 : List KPINode :=
  [⟨"a", "A", none, none, none, some .operational,
    some [⟨"b", "B", none, none, none, some .maintenance,
           none, none, none, none, none⟩],
    none, none, none, none⟩,
   ⟨"c", "C", none, none, none, some .operational, none, none, none, none, none⟩]

theorem move_C1 :
    moveNode forestC1 "b" (some "c")
      = (⟨true, none⟩,
         [⟨"a", "A", none, none, none, some .operational, some [], none, none, none, none⟩,
          ⟨"c", "C", none, none, none, some .operational,
           some [⟨"b", "B", none, none, none, some .maintenance,
                  none, none, none, none, none⟩],
           none, none, none, none⟩]) := by
  simp [moveNode, validateMove, findNodeById, isDescendant, checkDescendants,
        checkDescList, isMoveValid, inferCategory, VALID_PARENT_CATEGORIES,
        removeNodeFromTree, removeFilter, addNodeToParent, appendChildAt, forestC1]
  decide

/-- C1 (code_bug): the pair `("b", "c")` is accepted by `validateMove` on
`forestC1`, and after `moveNode` the node `b` really is the (only) child of
`c` — yet `findParentOfNode "b"` returns `none` ("is a root"), because its
`found !== undefined` guard can never fail (the recursion returns `null`,
never `undefined`), so the search aborts inside the first node that has a
`children` array (here `a`, whose array became empty through the removal). -/
theorem moveNode_accepted_but_parent_lost :
    (moveNode forestC1 "b" (some "c")).1.valid = true ∧
      findParentOfNode "b" (moveNode forestC1 "b" (some "c")).2 none = none ∧
      (findNodeById "c" (moveNode forestC1 "b" (some "c")).2).map
          (fun n => (childD n).map KPINode.id)
        = some ["b"] := by
  refine ⟨?_, ?_, ?_⟩
  · rw [move_C1]
  · rw [move_C1]
    simp [findParentOfNode]
  · rw [move_C1]
    simp [findNodeById]

/-! ## Claims C2/C7/C8: duplicateNode -/

/-- A concrete id supply for `generateNodeId` in the duplicate examples. -/
def dupGen : Nat → String := fun k => "dup-" ++ toString k

/-- Forest for C2: `p` (operational) → `m` (maintenance) → `l` (metric). -/
def forestC2 : List KPINode :=
  [⟨"p", "P", none, none, none, some .operational,
    some [⟨"m", "M", none, none, none, some .maintenance,
           some [⟨"l", "L", none, none, none, some .metric,
                  none, none, none, none, none⟩],
           none, none, none, none⟩],
    none, none, none, none⟩]

theorem duplicate_C2 :
    duplicateNode forestC2 "m" dupGen
      = [⟨"p", "P", none, none, none, some .operational,
          some [⟨"m", "M", none, none, none, some .maintenance,
                 some [⟨"l", "L", none, none, none, some .metric,
                        none, none, none, none, none⟩],
                 none, none, none, none⟩,
                ⟨"dup-0", "M (copy)", none, none, none, some .maintenance,
                 some [⟨"l", "L", none, none, none, some .metric,
                        none, none, none, none, none⟩],
                 none, none, none, none⟩],
          none, none, none, none⟩] := by
  simp [duplicateNode, findNodeById, duplicateWithNewIds, duplicateChildren,
        addSibling, replaceLast, forestC2, dupGen]
  decide

/-- C2 (code_bug): duplicating the nested node `m` (which has the descendant
`l`) yields a clone whose only child still has the ORIGINAL id `l` — the id
`l` now occurs twice in the forest.  `duplicateWithNewIds` does build a
fully-fresh-id clone, but the `addSibling` closure then rebuilds the element
at `result.length - 1` — which is the just-inserted clone — with
`children := addSibling(node.children)`, i.e. with a copy of the ORIGINAL
children, discarding the fresh-id subtree. -/
theorem duplicateNode_keeps_original_descendant_ids :
    ((findNodeById "p" (duplicateNode forestC2 "m" dupGen)).map
        (fun n => (childD n).map fun c => (c.id, (childD c).map KPINode.id)))
      = some [("m", ["l"]), ("dup-0", ["l"])] := by
  rw [duplicate_C2]
  simp [findNodeById]

/-- Forest for C8: `p` carries a relationship and a marker and has the two
leaf children `m` and `s`. -/
def forestC8 : List KPINode :=
  [⟨"p", "P", none, none, none, some .operational,
    some [⟨"m", "M", none, none, none, some .metric, none, none, none, none, none⟩,
          ⟨"s", "S", none, none, none, some .metric, none, none, none, none, none⟩],
    none, some [⟨"r1", "x", some "depends"⟩], some ["star"], none⟩]

def nodeM8 : KPINode :=
  ⟨"m", "M", none, none, none, some .metric, none, none, none, none, none⟩

def dupM8 : KPINode :=
  ⟨"dup-0", "M (copy)", none, none, none, some .metric, none, none, none, none, none⟩

theorem find_m_C8 : findNodeById "m" forestC8 = some nodeM8 := by
  simp [findNodeById, forestC8, nodeM8]

theorem dupWith_m_C8 : duplicateWithNewIds dupGen 0 nodeM8 = (dupM8, 1) := by
  rw [duplicateWithNewIds.eq_def]
  simp [nodeM8, dupM8, dupGen]
  decide

theorem addSib_C8 :
    addSibling "m" dupM8 forestC8
      = [⟨"p", "P", none, none, none, some .operational,
          some [⟨"m", "M", none, none, none, some .metric, none, none, none, none, none⟩,
                ⟨"dup-0", "M (copy)", none, none, none, some .metric,
                 none, none, none, none, none⟩,
                ⟨"s", "S", none, none, none, some .metric, none, none, none, none, none⟩],
          none, none, none, none⟩] := by
  simp [addSibling, replaceLast, forestC8, dupM8]

theorem duplicate_C8 :
    duplicateNode forestC8 "m" dupGen
      = [⟨"p", "P", none, none, none, some .operational,
          some [⟨"m", "M", none, none, none, some .metric, none, none, none, none, none⟩,
                ⟨"dup-0", "M (copy)", none, none, none, some .metric,
                 none, none, none, none, none⟩,
                ⟨"s", "S", none, none, none, some .metric, none, none, none, none, none⟩],
          none, none, none, none⟩] := by
  rw [duplicateNode, find_m_C8]
  simp only [dupWith_m_C8]
  rw [show (forestC8.any fun n => n.id == "m") = false by simp [forestC8]]
  simp only [Bool.false_eq_true, if_false, deepClone, addSib_C8]

/-- C8 (code_bug): duplicating the nested leaf `m` does insert the clone
right after `m` among its siblings, but the pre-existing parent `p` does NOT
keep all of its fields: the `addSibling` rebuild lists only
`id, name, icon, unit, esg, scope, category, children`, so `p` loses its
`relationships` and `markers` (and would lose `isDetached`/`position`). -/
theorem duplicateNode_drops_parent_fields :
    ((findNodeById "p" (duplicateNode forestC8 "m" dupGen)).map
        (fun n => (n.relationships, n.markers)))
      = some (none, none) ∧
      ((findNodeById "p" forestC8).map (fun n => (n.relationships, n.markers)))
        = some (some [⟨"r1", "x", some "depends"⟩], some ["star"]) := by
  constructor
  · rw [duplicate_C8]
    simp [findNodeById]
  · simp [findNodeById, forestC8]

/-- Forest for C7: top-level `r` with the single child `c`. -/
def forestC7 : List KPINode :=
  [⟨"r", "R", none, none, none, some .root,
    some [⟨"c", "C", none, none, none, some .metric, none, none, none, none, none⟩],
    none, none, none, none⟩]

theorem duplicate_C7 :
    duplicateNode forestC7 "r" dupGen
      = [⟨"r", "R", none, none, none, some .root,
          some [⟨"c", "C", none, none, none, some .metric, none, none, none, none, none⟩],
          none, none, none, none⟩,
         ⟨"dup-0", "R (copy)", none, none, none, some .root,
          some [⟨"dup-1", "C (copy)", none, none, none, some .metric,
                 none, none, none, none, none⟩],
          none, none, none, none⟩] := by
  simp [duplicateNode, findNodeById, duplicateWithNewIds, duplicateChildren,
        spliceAfter, forestC7, dupGen]
  decide

/-- C7 counterexample: duplicating the top-level node `r` (original child
name "C") produces a clone whose DESCENDANT is renamed to "C (copy)" — the
" (copy)" suffix is not restricted to the clone's root. -/
theorem duplicateNode_renames_descendant :
    ((duplicateNode forestC7 "r" dupGen).get? 1).map
        (fun n => (childD n).map KPINode.name)
      = some ["C (copy)"] ∧ ("C (copy)" : String) ≠ "C" := by
  constructor
  · rw [duplicate_C7]
    rfl
  · decide

/-! ## Claim C3: reverse edges -/

/-- Forest for C3: the two unrelated leaves `s` and `t`. -/
def forestC3 : List KPINode :=
  [⟨"s", "S", none, none, none, some .metric, none, none, none, none, none⟩,
   ⟨"t", "T", none, none, none, some .metric, none, none, none, none, none⟩]

def nodeS3 : KPINode :=
  ⟨"s", "S", none, none, none, some .metric, none, none, none, none, none⟩

def forestC3linked : List KPINode :=
  [⟨"s", "S", none, none, none, some .metric, none, none,
    some [⟨"link-1", "t", some "L"⟩], none, none⟩,
   ⟨"t", "T", none, none, none, some .metric, none, none, none, none, none⟩]

theorem find_s_C3 : findNodeById "s" forestC3 = some nodeS3 := by
  simp [findNodeById, forestC3, nodeS3]

theorem linkUpd_C3 :
    linkUpdateNode "s" ⟨"link-1", "t", some "L"⟩ forestC3 = forestC3linked := by
  simp [linkUpdateNode, forestC3, forestC3linked]

theorem createLink_C3 :
    createLink forestC3 (some "s") "t" (some "L") "link-1"
      = (true, forestC3linked) := by
  rw [createLink, find_s_C3]
  rw [show (("s" == "") || ("s" == "t")) = false by decide]
  simp only [Bool.false_eq_true, if_false, nodeS3, relsD, KPINode.relationships]
  simp only [Option.getD, List.any_nil, Bool.false_eq_true, if_false, deepClone,
             linkUpd_C3]

/-- C3 counterexample: an (accepted) `createLink` from `s` to `t` records
ONLY the forward edge on `s`; the target node `t` gets no reverse edge at
all — the bidirectional-by-construction invariant claimed for link creation
does not hold for `createLink` (only the XMind import path synthesizes
reverse edges). -/
theorem createLink_stores_no_reverse_edge :
    (createLink forestC3 (some "s") "t" (some "L") "link-1").1 = true ∧
      getRels "s" (createLink forestC3 (some "s") "t" (some "L") "link-1").2
        = [⟨"link-1", "t", some "L"⟩] ∧
      getRels "t" (createLink forestC3 (some "s") "t" (some "L") "link-1").2
        = [] := by
  rw [createLink_C3]
  refine ⟨rfl, ?_, ?_⟩
  · simp [getRels, findNodeById, forestC3linked]
  · simp [getRels, findNodeById, forestC3linked]

/-! ## Claim C10: addNode with a non-existent parent id -/

theorem setChildren_eq_self {n : KPINode} {cs : List KPINode}
    (hch : n.children = some cs) : setChildren n (some cs) = n := by
  cases n
  simp_all

theorem appendChildAt_of_not_found (pid : String) (x : KPINode)
    (F : List KPINode) (h : findNodeById pid F = none) :
    appendChildAt pid x F = F := by
  induction F using findNodeById.induct pid with
  | case1 => rw [appendChildAt]
  | case2 n rest hid =>
    rw [findNodeById, if_pos hid] at h
    exact absurd h (by simp)
  | case3 n rest hid cs hch found hfind ih =>
    rw [findNodeById, if_neg hid, hch] at h
    simp only [hfind] at h
    simp at h
  | case4 n rest hid cs hch hfind ih ih2 =>
    rw [findNodeById, if_neg hid, hch] at h
    simp only [hfind] at h
    rw [appendChildAt, if_neg hid, hch]
    simp only [ih hfind, ih2 h, setChildren_eq_self hch]
  | case5 n rest hid hch ih =>
    rw [findNodeById, if_neg hid, hch] at h
    rw [appendChildAt, if_neg hid, hch]
    simp only [ih h]

/-- C10 (confirmed): when no node of the forest has id `parentId`, `addNode`
still returns the freshly generated node id, but the resulting forest is the
input forest unchanged — a silent no-op that reports success. -/
theorem addNode_missing_parent (F : List KPINode) (parentId : String)
    (d : NewNodeData) (freshId : String)
    (h : findNodeById parentId F = none) :
    addNode F parentId d freshId = (freshId, F) := by
  simp [addNode, appendChildAt_of_not_found _ _ _ h]

/-- Witness for `addNode_missing_parent` on a concrete two-level forest and
the absent parent id "ghost". -/
theorem addNode_missing_parent_witness :
    findNodeById "ghost"
        [⟨"a", "A", none, none, none, none,
          some [⟨"b", "B", none, none, none, none, none, none, none, none, none⟩],
          none, none, none, none⟩] = none ∧
      addNode
          [⟨"a", "A", none, none, none, none,
            some [⟨"b", "B", none, none, none, none, none, none, none, none, none⟩],
            none, none, none, none⟩] "ghost" ⟨"N", none, none, none⟩ "fresh-1"
        = ("fresh-1",
           [⟨"a", "A", none, none, none, none,
             some [⟨"b", "B", none, none, none, none, none, none, none, none, none⟩],
             none, none, none, none⟩]) :=
  ⟨by simp [findNodeById],
   addNode_missing_parent _ _ _ _ (by simp [findNodeById])⟩

/-! ## Claim C4: cycle prevention -/

/-- C4 (confirmed): if the node `nodeId` is found and `t` is the id of a
node in its subtree (`checkDescendants`), then `validateMove` rejects the
move of `nodeId` under `t`.  The two side conditions keep `t` a genuine node
id: the store reserves `"__root__"` as the root sentinel and JS treats the
empty string as falsy, and for either of those values `validateMove` does
not address a target node at all but a move to top level. -/
theorem validateMove_rejects_descendant (F : List KPINode) (nodeId t : String)
    (s : KPINode) (hfind : findNodeById nodeId F = some s)
    (hdesc : checkDescendants s t = true)
    (hroot : t ≠ "__root__") (hempty : t ≠ "") :
    (validateMove F nodeId (some t)).valid = false := by
  rw [validateMove]
  have hne : (t != "") = true := by simpa using hempty
  have hnr : (t != "__root__") = true := by simpa using hroot
  by_cases hself : (nodeId == t) = true
  · simp [hself]
  · simp [hself, hfind, isDescendant, hdesc, hne, hnr]

/-- The node `p → q` of the C4 witness. -/
def nodeC4 : KPINode :=
  ⟨"p", "P", none, none, none, some .operational,
   some [⟨"q", "Q", none, none, none, some .metric, none, none, none, none, none⟩],
   none, none, none, none⟩

/-- Witness for `validateMove_rejects_descendant`: in the forest
`[p → q]` the move of `p` under its child `q` is rejected. -/
theorem validateMove_rejects_descendant_witness :
    findNodeById "p" [nodeC4] = some nodeC4 ∧
      checkDescendants nodeC4 "q" = true ∧
      "q" ≠ "__root__" ∧ "q" ≠ "" ∧
      (validateMove [nodeC4] "p" (some "q")).valid = false :=
  ⟨by simp [findNodeById, nodeC4],
   by simp [checkDescendants, checkDescList, nodeC4],
   by decide, by decide,
   validateMove_rejects_descendant [nodeC4] "p" "q" nodeC4
     (by simp [findNodeById, nodeC4])
     (by simp [checkDescendants, checkDescList, nodeC4])
     (by decide) (by decide)⟩

/-! ## Claim C7 (amended): every cloned node is renamed -/

mutual

/-- The names of all nodes of the subtree rooted at `n`, in preorder. -/
def subtreeNames (n : KPINode) : List String :=
  match n with
  | ⟨_, nm, _, _, _, _, ch, _, _, _, _⟩ =>
    nm :: (match ch with
           | some cs => listNames cs
           | none => [])
termination_by sizeOf n
decreasing_by
  simp
  omega

/-- The names of all nodes of the subtrees of a node list, in preorder. -/
def listNames (l : List KPINode) : List String :=
  match l with
  | [] => []
  | c :: rest => subtreeNames c ++ listNames rest
termination_by sizeOf l
decreasing_by
  all_goals simp
  all_goals omega

end

mutual

theorem dupNode_names (gen : Nat → String) (k : Nat) (n : KPINode) :
    subtreeNames (duplicateWithNewIds gen k n).1
      = (subtreeNames n).map (fun s => s ++ " (copy)") := by
  cases n with
  | mk i nm u e s c ch d r mks p =>
    cases ch with
    | some cs =>
      rw [duplicateWithNewIds, subtreeNames, subtreeNames]
      simp only [dupList_names gen (k + 1) cs, List.map_cons]
    | none =>
      rw [duplicateWithNewIds, subtreeNames, subtreeNames]
      simp
termination_by sizeOf n
decreasing_by
  simp
  omega

theorem dupList_names (gen : Nat → String) (k : Nat) (l : List KPINode) :
    listNames (duplicateChildren gen k l).1
      = (listNames l).map (fun s => s ++ " (copy)") := by
  cases l with
  | nil =>
    rw [duplicateChildren, listNames.eq_def]
    simp [listNames.eq_def]
  | cons c rest =>
    rw [duplicateChildren, listNames.eq_def, listNames.eq_def]
    simp only [dupNode_names gen k c, dupList_names gen (duplicateWithNewIds gen k c).2 rest,
               List.map_append]
termination_by sizeOf l
decreasing_by
  all_goals simp
  all_goals omega

end

/-- C7 (amended): `duplicateWithNewIds` appends " (copy)" to the name of
EVERY node of the clone, not only to the clone's root: the preorder name
list of the clone's subtree is the original subtree's name list with
" (copy)" appended to each entry. -/
theorem duplicateWithNewIds_names_all_copy (gen : Nat → String) (k : Nat)
    (n : KPINode) :
    subtreeNames (duplicateWithNewIds gen k n).1
      = (subtreeNames n).map (fun s => s ++ " (copy)") :=
  dupNode_names gen k n

/-! ## Claim C3 (amended): the import path maintains reverse edges -/

theorem findNodeById_cons (x : String) (n : KPINode) (rest : List KPINode) :
    findNodeById x (n :: rest)
      = if n.id == x then some n
        else
          match n.children with
          | some cs =>
            (match findNodeById x cs with
             | some found => some found
             | none => findNodeById x rest)
          | none => findNodeById x rest := by
  rw [findNodeById]
  cases hch : n.children <;> rfl

theorem updNodeById_cons (nid : String) (f : KPINode → KPINode) (n : KPINode)
    (rest : List KPINode) :
    updNodeById nid f (n :: rest)
      = (match n.children with
         | some cs =>
           setChildren (if n.id == nid then f n else n) (some (updNodeById nid f cs))
         | none => (if n.id == nid then f n else n)) :: updNodeById nid f rest := by
  rw [updNodeById]
  cases hch : n.children <;> rfl

theorem updBase_id (nid : String) (r : NodeRel) (n : KPINode) :
    (if (n.id == nid) = true then pushRel r n else n).id = n.id := by
  split
  · cases n; simp
  · rfl

theorem updBase_children (nid : String) (r : NodeRel) (n : KPINode) :
    (if (n.id == nid) = true then pushRel r n else n).children = n.children := by
  split
  · cases n; simp
  · rfl

theorem updBase_relationships (nid : String) (r : NodeRel) (n : KPINode) :
    (if (n.id == nid) = true then pushRel r n else n).relationships
      = if (n.id == nid) = true then some (relsD n ++ [r]) else n.relationships := by
  split
  · cases n; simp
  · rfl

theorem findNodeById_cons_some (x : String) (n : KPINode) (rest cs : List KPINode)
    (hch : n.children = some cs) :
    findNodeById x (n :: rest)
      = if n.id == x then some n
        else
          match findNodeById x cs with
          | some found => some found
          | none => findNodeById x rest := by
  rw [findNodeById_cons, hch]

theorem findNodeById_cons_none (x : String) (n : KPINode) (rest : List KPINode)
    (hch : n.children = none) :
    findNodeById x (n :: rest)
      = if n.id == x then some n else findNodeById x rest := by
  rw [findNodeById_cons, hch]

theorem updNodeById_cons_some (nid : String) (f : KPINode → KPINode) (n : KPINode)
    (rest cs : List KPINode) (hch : n.children = some cs) :
    updNodeById nid f (n :: rest)
      = setChildren (if n.id == nid then f n else n) (some (updNodeById nid f cs))
          :: updNodeById nid f rest := by
  rw [updNodeById_cons, hch]

theorem updNodeById_cons_none (nid : String) (f : KPINode → KPINode) (n : KPINode)
    (rest : List KPINode) (hch : n.children = none) :
    updNodeById nid f (n :: rest)
      = (if n.id == nid then f n else n) :: updNodeById nid f rest := by
  rw [updNodeById_cons, hch]

/-- Relationship view of `findNodeById` after a `pushRel` update: the node
found by `x` (if any) is unchanged except that, when its id is `nid`, the
pushed record is appended to its relationship list. -/
theorem findNodeById_updNodeById (x nid : String) (r : NodeRel) :
    (F : List KPINode) →
    (findNodeById x (updNodeById nid (pushRel r) F)).map KPINode.relationships
      = (findNodeById x F).map
          (fun n => if (n.id == nid) = true then some (relsD n ++ [r]) else n.relationships)
  | [] => by simp [updNodeById, findNodeById]
  | n :: rest => by
    have ihRest := findNodeById_updNodeById x nid r rest
    cases hch : n.children with
    | some cs =>
      have ihCs := findNodeById_updNodeById x nid r cs
      rw [updNodeById_cons_some nid _ n rest cs hch]
      rw [findNodeById_cons_some x _ _ _
            (by rw [setChildren_children] :
              (setChildren (if n.id == nid then pushRel r n else n)
                (some (updNodeById nid (pushRel r) cs))).children
              = some (updNodeById nid (pushRel r) cs))]
      rw [findNodeById_cons_some x n rest cs hch]
      rw [setChildren_id, updBase_id]
      by_cases hx : (n.id == x) = true
      · rw [if_pos hx, if_pos hx]
        simp only [Option.map_some']
        rw [setChildren_relationships, updBase_relationships]
      · rw [if_neg hx, if_neg hx]
        cases hfc : findNodeById x cs with
        | some m =>
          rw [hfc] at ihCs
          cases hfu : findNodeById x (updNodeById nid (pushRel r) cs) with
          | none =>
            rw [hfu] at ihCs
            simp at ihCs
          | some m2 =>
            rw [hfu] at ihCs
            simpa using ihCs
        | none =>
          rw [hfc] at ihCs
          cases hfu : findNodeById x (updNodeById nid (pushRel r) cs) with
          | none =>
            simpa using ihRest
          | some m2 =>
            rw [hfu] at ihCs
            simp at ihCs
    | none =>
      rw [updNodeById_cons_none nid _ n rest hch]
      rw [findNodeById_cons_none x _ _ (by rw [updBase_children, hch])]
      rw [findNodeById_cons_none x n rest hch]
      rw [updBase_id]
      by_cases hx : (n.id == x) = true
      · rw [if_pos hx, if_pos hx]
        simp only [Option.map_some']
        rw [updBase_relationships]
      · rw [if_neg hx, if_neg hx]
        exact ihRest
termination_by F => sizeOf F
decreasing_by
  all_goals cases n
  all_goals simp_all
  all_goals omega

/-- A `pushRel` update never changes which ids are findable. -/
theorem findNodeById_updNodeById_isSome (x nid : String) (r : NodeRel)
    (F : List KPINode) :
    (findNodeById x (updNodeById nid (pushRel r) F)).isSome
      = (findNodeById x F).isSome := by
  have h := findNodeById_updNodeById x nid r F
  cases hf : findNodeById x F with
  | none =>
    rw [hf] at h
    cases hfu : findNodeById x (updNodeById nid (pushRel r) F) with
    | none => simp
    | some m => rw [hfu] at h; simp at h
  | some m =>
    rw [hf] at h
    cases hfu : findNodeById x (updNodeById nid (pushRel r) F) with
    | none => rw [hfu] at h; simp at h
    | some m2 => simp

/-- Effect of a `pushRel` update on a node's relationship list. -/
theorem getRels_updNodeById (x nid : String) (r : NodeRel) (F : List KPINode) :
    getRels x (updNodeById nid (pushRel r) F)
      = if (x == nid) && (findNodeById x F).isSome then getRels x F ++ [r]
        else getRels x F := by
  have h := findNodeById_updNodeById x nid r F
  rw [getRels, getRels]
  cases hf : findNodeById x F with
  | none =>
    rw [hf] at h
    cases hfu : findNodeById x (updNodeById nid (pushRel r) F) with
    | none => simp
    | some m => rw [hfu] at h; simp at h
  | some m =>
    rw [hf] at h
    cases hfu : findNodeById x (updNodeById nid (pushRel r) F) with
    | none => rw [hfu] at h; simp at h
    | some m2 =>
      rw [hfu] at h
      simp only [Option.map_some'] at h
      have hid := findNodeById_id hf
      rw [hid] at h
      by_cases hxn : (x == nid) = true
      · have h2 : m2.relationships = some (relsD m ++ [r]) := by
          simpa [hxn] using h
        rw [if_pos (by simp [hxn])]
        show m2.relationships.getD [] = relsD m ++ [r]
        rw [h2, Option.getD_some]
      · have hxn2 : (x == nid) = false := by simpa using hxn
        have h2 : m2.relationships = m.relationships := by
          simpa [hxn2] using h
        rw [if_neg (by simp [hxn2])]
        show m2.relationships.getD [] = m.relationships.getD []
        rw [h2]

/-- `processRel` never changes which ids are findable. -/
theorem processRel_isSome (y : String) (F : List KPINode) (rel : XRel) :
    (findNodeById y (processRel F rel)).isSome = (findNodeById y F).isSome := by
  rw [processRel]
  split
  · dsimp only
    split
    · exact findNodeById_updNodeById_isSome y rel.end1Id _ F
    · rw [findNodeById_updNodeById_isSome, findNodeById_updNodeById_isSome]
  · rfl

/-- A `pushRel` update preserves any already-satisfied relationship predicate. -/
theorem getRels_any_updNodeById (y nid : String) (r : NodeRel) (F : List KPINode)
    (q : NodeRel → Bool) (h : (getRels y F).any q = true) :
    (getRels y (updNodeById nid (pushRel r) F)).any q = true := by
  rw [getRels_updNodeById]
  split
  · simp only [List.any_append, h, Bool.true_or]
  · exact h

/-- `processRel` preserves any already-satisfied relationship predicate. -/
theorem processRel_any (y : String) (q : NodeRel → Bool) (F : List KPINode)
    (rel : XRel) (h : (getRels y F).any q = true) :
    (getRels y (processRel F rel)).any q = true := by
  rw [processRel]
  split
  · dsimp only
    split
    · exact getRels_any_updNodeById _ _ _ _ _ h
    · exact getRels_any_updNodeById _ _ _ _ _ (getRels_any_updNodeById _ _ _ _ _ h)
  · exact h

/-- After `processRel` on a record with both endpoints present, the target
node has an edge back to the source. -/
theorem processRel_establishes (F : List KPINode) (rel : XRel)
    (h1 : (findNodeById rel.end1Id F).isSome = true)
    (h2 : (findNodeById rel.end2Id F).isSome = true) :
    (getRels rel.end2Id (processRel F rel)).any
      (fun r => r.targetId == rel.end1Id) = true := by
  rw [processRel]
  rw [if_pos (by simp [h1, h2])]
  dsimp only
  by_cases hrev :
      (getRels rel.end2Id
          (updNodeById rel.end1Id
            (pushRel ⟨rel.id, rel.end2Id, relLabel rel⟩) F)).any
        (fun r => r.targetId == rel.end1Id) = true
  · rw [if_pos hrev]
    exact hrev
  · rw [if_neg hrev]
    rw [getRels_updNodeById]
    rw [if_pos (by
      simp only [beq_self_eq_true, Bool.true_and]
      rw [findNodeById_updNodeById_isSome]
      exact h2)]
    simp [List.any_append]

/-- Folding `processRel` never changes which ids are findable. -/
theorem processRelationships_isSome (y : String) :
    (rels : List XRel) → (F : List KPINode) →
    (findNodeById y (List.foldl processRel F rels)).isSome
      = (findNodeById y F).isSome
  | [], _ => rfl
  | r :: rest, F => by
    rw [List.foldl_cons, processRelationships_isSome y rest (processRel F r)]
    exact processRel_isSome y F r

/-- Folding `processRel` preserves any already-satisfied relationship predicate. -/
theorem processRelationships_any (y : String) (q : NodeRel → Bool) :
    (rels : List XRel) → (F : List KPINode) →
    (getRels y F).any q = true →
    (getRels y (List.foldl processRel F rels)).any q = true
  | [], _, h => h
  | r :: rest, F, h => by
    rw [List.foldl_cons]
    exact processRelationships_any y q rest _ (processRel_any y q F r h)

theorem processRelationships_reverse_edge_aux (rels : List XRel) (rel : XRel) :
    ∀ (F : List KPINode), rel ∈ rels →
    (findNodeById rel.end1Id F).isSome = true →
    (findNodeById rel.end2Id F).isSome = true →
    (getRels rel.end2Id (processRelationships F rels)).any
      (fun r => r.targetId == rel.end1Id) = true := by
  induction rels with
  | nil => intro F hmem _ _; simp at hmem
  | cons r0 rest ih =>
    intro F hmem h1 h2
    rw [processRelationships, List.foldl_cons]
    rcases List.mem_cons.mp hmem with heq | hmem2
    · subst heq
      exact processRelationships_any _ _ rest _ (processRel_establishes F rel h1 h2)
    · have e1 : (findNodeById rel.end1Id (processRel F r0)).isSome = true := by
        rw [processRel_isSome]; exact h1
      have e2 : (findNodeById rel.end2Id (processRel F r0)).isSome = true := by
        rw [processRel_isSome]; exact h2
      have := ih (processRel F r0) hmem2 e1 e2
      rw [processRelationships] at this
      exact this

/-- C3 (amended): after the import-side `processRelationships`, every
processed record `end1 → end2` whose two endpoints exist in the forest
leaves on the `end2` node at least one edge targeting `end1` — either a
pre-existing one (the targetId dedup) or the synthesized `-reverse` edge.
The `Nodup` hypothesis reflects the spec's global id-uniqueness invariant,
under which the model's by-id update touches exactly the one node the TS
code mutates through its id → node map. -/
theorem processRelationships_reverse_edge (F : List KPINode) (rels : List XRel)
    (rel : XRel) (_huniq : (allIds F).Nodup) (hmem : rel ∈ rels)
    (h1 : (findNodeById rel.end1Id F).isSome = true)
    (h2 : (findNodeById rel.end2Id F).isSome = true) :
    (getRels rel.end2Id (processRelationships F rels)).any
      (fun r => r.targetId == rel.end1Id) = true :=
  processRelationships_reverse_edge_aux rels rel F hmem h1 h2

/-- Witness for `processRelationships_reverse_edge`: importing the single
record `s → t` over the two-leaf forest leaves on `t` an edge targeting `s`. -/
theorem processRelationships_reverse_edge_witness :
    (allIds forestC3).Nodup ∧
      (⟨"r1", "s", "t", some "lab", none⟩ : XRel) ∈
        ([⟨"r1", "s", "t", some "lab", none⟩] : List XRel) ∧
      (findNodeById "s" forestC3).isSome = true ∧
      (findNodeById "t" forestC3).isSome = true ∧
      (getRels "t" (processRelationships forestC3
          [⟨"r1", "s", "t", some "lab", none⟩])).any
        (fun r => r.targetId == "s") = true :=
  ⟨by simp [allIds, allNodesList, forestC3],
   by simp,
   by simp [findNodeById, forestC3],
   by simp [findNodeById, forestC3],
   processRelationships_reverse_edge forestC3
     [⟨"r1", "s", "t", some "lab", none⟩] ⟨"r1", "s", "t", some "lab", none⟩
     (by simp [allIds, allNodesList, forestC3])
     (by simp)
     (by simp [findNodeById, forestC3])
     (by simp [findNodeById, forestC3])⟩

/-! ## Claim C5: relationship placement in the XMind export -/

theorem collectRelationships_cons_some (n : KPINode) (rest cs : List KPINode)
    (hch : n.children = some cs) :
    collectRelationships (n :: rest)
      = nodeRelRecords n ++ collectRelationships cs ++ collectRelationships rest := by
  rw [collectRelationships, hch]

theorem collectRelationships_cons_none (n : KPINode) (rest : List KPINode)
    (hch : n.children = none) :
    collectRelationships (n :: rest)
      = nodeRelRecords n ++ [] ++ collectRelationships rest := by
  rw [collectRelationships, hch]

theorem allNodesList_cons_some (n : KPINode) (rest cs : List KPINode)
    (hch : n.children = some cs) :
    allNodesList (n :: rest) = n :: (allNodesList cs ++ allNodesList rest) := by
  rw [allNodesList, hch]

theorem allNodesList_cons_none (n : KPINode) (rest : List KPINode)
    (hch : n.children = none) :
    allNodesList (n :: rest) = n :: ([] ++ allNodesList rest) := by
  rw [allNodesList, hch]

/-- `collectRelationships` collects exactly the per-node records of every
node of the forest, in preorder. -/
theorem collectRelationships_eq_bind :
    (ns : List KPINode) →
    collectRelationships ns = (allNodesList ns).flatMap nodeRelRecords
  | [] => by rw [collectRelationships, allNodesList]; rfl
  | n :: rest => by
    have ihRest := collectRelationships_eq_bind rest
    cases hch : n.children with
    | some cs =>
      have ihCs := collectRelationships_eq_bind cs
      rw [collectRelationships_cons_some n rest cs hch,
          allNodesList_cons_some n rest cs hch]
      simp [List.flatMap_cons, List.flatMap_append, ihCs, ihRest, List.append_assoc]
    | none =>
      rw [collectRelationships_cons_none n rest hch,
          allNodesList_cons_none n rest hch]
      simp [List.flatMap_cons, ihRest]
termination_by ns => sizeOf ns
decreasing_by
  all_goals cases n
  all_goals simp_all
  all_goals omega

theorem sheetsFrom_get (gen : Nat → String) (data det : List KPINode) :
    (l : List KPINode) → (i k : Nat) →
    (sheetsFrom gen data det i l).get? k
      = (l.get? k).map (fun x => mkSheet gen data det (i + k) x)
  | [], i, k => by simp [sheetsFrom]
  | r :: rest, i, 0 => by simp [sheetsFrom]
  | r :: rest, i, (k+1) => by
    rw [sheetsFrom]
    simp only [List.get?_cons_succ]
    rw [sheetsFrom_get gen data det rest (i + 1) k]
    have harith : i + 1 + k = i + (k + 1) := by omega
    rw [harith]

theorem relOpt_getD (l : List XRel) :
    (if 0 < l.length then some l else none).getD [] = l := by
  cases l <;> simp

/-- C5 (confirmed): in the sheet list built by the XMind export of a forest
with at least one attached (non-detached) top-level node, the FIRST sheet
carries the relationship records of every node of the entire forest (all
attached roots' subtrees and all detached top-level nodes, in preorder),
while every later sheet carries exactly the records found within its own
root's subtree. -/
theorem exportSheets_relationship_placement (gen : Nat → String)
    (data : List KPINode) (r0 : KPINode) (rs : List KPINode)
    (h : data.filter (fun n => !jsBool n.isDetached) = r0 :: rs) :
    ((exportSheets gen data).get? 0).map (fun s => s.relationships.getD [])
        = some ((allNodesList data).flatMap nodeRelRecords) ∧
      ∀ (k : Nat) (x : KPINode), rs.get? k = some x →
        ((exportSheets gen data).get? (k + 1)).map
            (fun s => s.relationships.getD [])
          = some ((allNodesList [x]).flatMap nodeRelRecords) := by
  rw [exportSheets]
  rw [h]
  rw [if_neg (by simp)]
  constructor
  · rw [sheetsFrom_get gen data _ (r0 :: rs) 0 0]
    simp only [List.get?_cons_zero, Option.map_some']
    rw [mkSheet]
    dsimp only
    simp only [relOpt_getD]
    simp [collectRelationships_eq_bind]
  · intro k x hk
    rw [sheetsFrom_get gen data _ (r0 :: rs) 0 (k + 1)]
    simp only [List.get?_cons_succ]
    rw [hk]
    simp only [Option.map_some']
    rw [mkSheet]
    dsimp only
    simp only [relOpt_getD]
    simp [collectRelationships_eq_bind]

/-- C5 witness: `r1` (with a relationship and a child `k1` carrying another),
`r2` (with a relationship) and the detached `d1` (with a relationship). -/
def nodeC5r1 : KPINode :=
  ⟨"r1", "R1", none, none, none, none,
   some [⟨"k1", "K1", none, none, none, none, none, none,
          some [⟨"e1", "t9", some "x"⟩], none, none⟩],
   none, some [⟨"e0", "k1", none⟩], none, none⟩

def nodeC5r2 : KPINode :=
  ⟨"r2", "R2", none, none, none, none, none, none,
   some [⟨"e2", "r1", none⟩], none, none⟩

def nodeC5d1 : KPINode :=
  ⟨"d1", "D1", none, none, none, none, none, some true,
   some [⟨"e3", "r2", none⟩], none, none⟩

def dataC5 : List KPINode := [nodeC5r1, nodeC5r2, nodeC5d1]

def sheetGen : Nat → String := fun k => "sheet-" ++ toString k

/-- Witness for `exportSheets_relationship_placement` on `dataC5`. -/
theorem exportSheets_relationship_placement_witness :
    dataC5.filter (fun n => !jsBool n.isDetached) = nodeC5r1 :: [nodeC5r2] ∧
      (((exportSheets sheetGen dataC5).get? 0).map
            (fun s => s.relationships.getD [])
          = some ((allNodesList dataC5).flatMap nodeRelRecords) ∧
        ∀ (k : Nat) (x : KPINode), ([nodeC5r2] : List KPINode).get? k = some x →
          ((exportSheets sheetGen dataC5).get? (k + 1)).map
              (fun s => s.relationships.getD [])
            = some ((allNodesList [x]).flatMap nodeRelRecords)) :=
  ⟨by rfl,
   exportSheets_relationship_placement sheetGen dataC5 nodeC5r1 [nodeC5r2] (by rfl)⟩
